import Mathlib

/-!
Verification of the geometric and shading core of the ray tracer.

The Rust source stores scalars as `f64`; we embed them as exact rationals
(`ℚ`).  The two partial floating-point operations the code uses, `f64::sqrt`
and `f64::powf`, have no rational counterpart, so every definition that needs
them receives them as explicit function arguments (`sq : ℚ → ℚ`,
`pw : ℚ → ℚ → ℚ`); theorems quantify over these functions and assume only the
properties a square root actually has where they are needed.  Rust panics
(`unwrap` on a failed matrix inversion, vector operations on ill-tagged
arguments) are modelled by explicitly documented junk values; every theorem
below stays inside the panic-free domain.
-/

namespace RayTrace

/-- Tag of a tagged 3-vector, from vec3.rs (enum VecType). -/
inductive VecType where
  | Vector
  | Point
  | Colour
deriving DecidableEq

/-- Tagged quantity from vec3.rs (struct TypedVec): three coordinates, a
homogeneous coordinate w and a tag. -/
structure TypedVec where
  x : ℚ
  y : ℚ
  z : ℚ
  w : ℚ
  is : VecType
deriving DecidableEq

namespace TypedVec

/-- TypedVec::point. -/
def point (x y z : ℚ) : TypedVec := ⟨x, y, z, 1, VecType.Point⟩

/-- TypedVec::vector. -/
def vector (x y z : ℚ) : TypedVec := ⟨x, y, z, 0, VecType.Vector⟩

/-- TypedVec::is_point. -/
def is_point (v : TypedVec) : Bool := v.is = VecType.Point

/-- TypedVec::is_vector. -/
def is_vector (v : TypedVec) : Bool := v.is = VecType.Vector

/-- Add for TypedVec.  The source panics on point + point; that branch is
mapped to the same result as the final else branch (a junk value, never
reached by the theorems below). -/
def add (a b : TypedVec) : TypedVec :=
  let p : VecType × ℚ :=
    if (a.is_point && b.is_vector) || (a.is_vector && b.is_point) then
      (VecType.Point, 1)
    else
      (VecType.Vector, 0)
  ⟨a.x + b.x, a.y + b.y, a.z + b.z, p.2, p.1⟩

instance : Add TypedVec := ⟨add⟩

/-- Sub for TypedVec.  The source panics on vector − point; that branch is
mapped to the final else branch (junk, never reached by the theorems). -/
def sub (a b : TypedVec) : TypedVec :=
  let p : VecType × ℚ :=
    if a.is_point && b.is_vector then (VecType.Point, 1)
    else (VecType.Vector, 0)
  ⟨a.x - b.x, a.y - b.y, a.z - b.z, p.2, p.1⟩

instance : Sub TypedVec := ⟨sub⟩

/-- Neg for TypedVec. -/
def neg (a : TypedVec) : TypedVec := ⟨-a.x, -a.y, -a.z, a.w, a.is⟩

instance : Neg TypedVec := ⟨neg⟩

/-- Mul of a TypedVec by an f64 scalar. -/
def smul (a : TypedVec) (r : ℚ) : TypedVec := ⟨a.x * r, a.y * r, a.z * r, a.w, a.is⟩

instance : HMul TypedVec ℚ TypedVec := ⟨smul⟩

/-- TypedVec::dot_product.  The source asserts both arguments are vectors;
the numeric formula is total. -/
def dot_product (a b : TypedVec) : ℚ := a.x * b.x + a.y * b.y + a.z * b.z

/-- TypedVec::magnitude, with f64::sqrt passed explicitly. -/
def magnitude (sq : ℚ → ℚ) (a : TypedVec) : ℚ := sq (a.x ^ 2 + a.y ^ 2 + a.z ^ 2)

/-- TypedVec::normalize, with f64::sqrt passed explicitly. -/
def normalize (sq : ℚ → ℚ) (a : TypedVec) : TypedVec :=
  let mag := magnitude sq a
  ⟨a.x / mag, a.y / mag, a.z / mag, a.w, a.is⟩

/-- TypedVec::reflect. -/
def reflect (a rhs : TypedVec) : TypedVec := a - rhs.smul (2 * a.dot_product rhs)

end TypedVec

/-- Colour from colour.rs. -/
structure Colour where
  red : ℚ
  green : ℚ
  blue : ℚ
deriving DecidableEq

namespace Colour

/-- Colour::new. -/
def new (r g b : ℚ) : Colour := ⟨r, g, b⟩

/-- Add for Colour. -/
instance : Add Colour := ⟨fun a b => ⟨a.red + b.red, a.green + b.green, a.blue + b.blue⟩⟩

/-- Sub for Colour. -/
instance : Sub Colour := ⟨fun a b => ⟨a.red - b.red, a.green - b.green, a.blue - b.blue⟩⟩

/-- Mul of a Colour by an f64 scalar. -/
instance : HMul Colour ℚ Colour := ⟨fun a r => ⟨a.red * r, a.green * r, a.blue * r⟩⟩

/-- Component-wise Mul of two Colours. -/
instance : Mul Colour := ⟨fun a b => ⟨a.red * b.red, a.green * b.green, a.blue * b.blue⟩⟩

end Colour

/-- The shared BLACK constant. -/
def BLACK : Colour := Colour.new 0 0 0

/-- The shared WHITE constant. -/
def WHITE : Colour := Colour.new 1 1 1

/-- EPSILON from lib.rs. -/
def EPSILON : ℚ := 1 / 10000

/-- Dense row-major matrix from matrix.rs, data indexed by col + row * cols. -/
structure Matrix where
  rows : ℕ
  cols : ℕ
  data : List ℚ
deriving DecidableEq

namespace Matrix

/-- Matrix::new: rows × cols filled with the default value 0. -/
def new (rows cols : ℕ) : Matrix := ⟨rows, cols, List.replicate (rows * cols) 0⟩

/-- Matrix::get: bounds-checked entry access; reads past the end of a short
data vector (a panic in Rust) give none. -/
def get (m : Matrix) (row col : ℕ) : Option ℚ :=
  if col < m.cols ∧ row < m.rows then m.data[col + row * m.cols]? else none

/-- Matrix::set: bounds-checked entry update (out of bounds leaves the matrix
unchanged; the source returns false there). -/
def set (m : Matrix) (row col : ℕ) (item : ℚ) : Matrix :=
  if col < m.cols ∧ row < m.rows then ⟨m.rows, m.cols, m.data.set (col + row * m.cols) item⟩
  else m

/-- Matrix::identity: zero matrix with ones written on the diagonal. -/
def identity (size : ℕ) : Matrix :=
  (List.range size).foldl
    (fun m r => (List.range size).foldl (fun m c => if r = c then m.set r c 1 else m) m)
    (new size size)

/-- Matrix::translation. -/
def translation (x y z : ℚ) : Matrix :=
  (((identity 4).set 0 3 x).set 1 3 y).set 2 3 z

/-- Matrix::scaling. -/
def scaling (x y z : ℚ) : Matrix :=
  (((identity 4).set 0 0 x).set 1 1 y).set 2 2 z

/-- Matrix::shearing. -/
def shearing (xy xz yx yz zx zy : ℚ) : Matrix :=
  ((((((((((new 4 4).set 0 0 1).set 0 1 xy).set 0 2 xz).set 1 0 yx).set 1 1 1).set 1 2 yz).set
      2 0 zx).set 2 1 zy).set 2 2 1).set 3 3 1

/-- Matrix::transpose: row r of the result is column r of the source
(correct for the square matrices the program uses). -/
def transpose (m : Matrix) : Matrix :=
  ⟨m.rows, m.cols,
    (List.range m.rows).flatMap fun r =>
      (List.range m.rows).map fun i => m.data.getD (r + i * m.cols) 0⟩

/-- Matrix::submatrix: drop one row and one column. -/
def submatrix (m : Matrix) (row col : ℕ) : Matrix :=
  ⟨m.rows - 1, m.cols - 1,
    ((List.range m.rows).filter (fun r => r ≠ row)).flatMap fun r =>
      ((List.range m.cols).filter (fun c => c ≠ col)).map fun c =>
        m.data.getD (c + r * m.cols) 0⟩

/-- Fuel-indexed core of Matrix::determinant, structurally recursive so that
it evaluates in the kernel.  The recursion of the source bottoms out at the
2 × 2 formula; each cofactor of the expansion along row 0 recurses on the
submatrix, whose row count is one smaller, so a fuel equal to the row count
always suffices.  A 0-row matrix makes the source panic
(get_row(0).unwrap()); that is modelled as the junk value 0. -/
def detF : ℕ → Matrix → ℚ
  | 0, _ => 0
  | fuel + 1, m =>
    if m.rows = 2 ∧ m.cols = 2 then
      m.data.getD 0 0 * m.data.getD 3 0 - m.data.getD 1 0 * m.data.getD 2 0
    else if m.rows = 0 then 0
    else
      (List.range m.cols).foldl
        (fun d i =>
          let mn := detF fuel (submatrix m 0 i)
          d + (if (0 + i) % 2 = 0 then mn else -mn) * m.data.getD i 0)
        0

/-- Matrix::determinant. -/
def determinant (m : Matrix) : ℚ := detF m.rows m

/-- Matrix::minor: determinant of the submatrix. -/
def minor (m : Matrix) (row col : ℕ) : ℚ := determinant (submatrix m row col)

/-- Matrix::cofactor: the minor, negated on odd row + col. -/
def cofactor (m : Matrix) (row col : ℕ) : ℚ :=
  let mn := minor m row col
  if (row + col) % 2 = 0 then mn else -mn

/-- Matrix::invertible: the determinant is not (exactly) zero. -/
def invertible (m : Matrix) : Prop := ¬determinant m = 0

instance (m : Matrix) : Decidable m.invertible := by unfold invertible; infer_instance

/-- Matrix::inverse: error when not invertible, otherwise write
cofactor(row, col) / det at position (col, row) — the transposed placement —
into a fresh zero matrix. -/
def inverse (m : Matrix) : Except String Matrix :=
  if m.invertible then
    let det := determinant m
    Except.ok <|
      (List.range m.rows).foldl
        (fun s row =>
          (List.range m.cols).foldl
            (fun s col => s.set col row (cofactor m row col / det)) s)
        (new m.rows m.cols)
  else Except.error "matrix isn't invertible"

/-- Helper mul_int from matrix.rs: dot product of matrix row `row` with the
4-vector [x, y, z, w].  The source starts from the first element of the
zipped iterators (empty rows would panic); rows of width 4 are total. -/
def mul_int (m : Matrix) (v : List ℚ) (row : ℕ) : ℚ :=
  match ((List.range m.cols).map fun c => m.data.getD (c + row * m.cols) 0).zip v with
  | [] => 0
  | p :: rest => rest.foldl (fun acc q => acc + q.1 * q.2) (p.1 * p.2)

/-- Mul<TypedVec> for Matrix: x, y, z come from rows 0–2; w and the tag are
copied from the right-hand side rather than computed from row 3. -/
def mulTV (m : Matrix) (rhs : TypedVec) : TypedVec :=
  let vec := [rhs.x, rhs.y, rhs.z, rhs.w]
  ⟨mul_int m vec 0, mul_int m vec 1, mul_int m vec 2, rhs.w, rhs.is⟩

end Matrix

/-- Unwrap of a Rust Result, with an explicit junk value standing for the
panic case; all theorems stay inside the panic-free domain. -/
def unwrapD {α : Type} (e : Except String α) (junk : α) : α :=
  match e with
  | Except.ok a => a
  | Except.error _ => junk

/-- Matrix inverse as used under unwrap: junk result is the zero matrix. -/
def Matrix.inverseD (m : Matrix) : Matrix :=
  unwrapD m.inverse (Matrix.new m.rows m.cols)

/-- Ray from ray.rs. -/
structure Ray where
  origin : TypedVec
  direction : TypedVec
deriving DecidableEq

namespace Ray

/-- Ray::position. -/
def position (r : Ray) (time : ℚ) : TypedVec := r.origin + r.direction.smul time

/-- Ray::transform: multiply origin and direction by the matrix. -/
def transform (r : Ray) (t : Matrix) : Ray :=
  ⟨t.mulTV r.origin, t.mulTV r.direction⟩

end Ray

/-- PatternType from pattern.rs. -/
inductive PatternType where
  | Checker
  | Gradient
  | Ring
  | Stripe
  | NoType
deriving DecidableEq

/-- Pattern from pattern.rs.  The perturb flag switches on a smooth noise
displacement; the noise function itself (perlin_noise) is out of scope and is
passed in abstractly where it is needed. -/
structure Pattern where
  a : Colour
  b : Colour
  is : PatternType
  perturb : Bool
  transform : Option Matrix
deriving DecidableEq

namespace Pattern

/-- Pattern::checker. -/
def checker (a b : Colour) (perturb : Bool) : Pattern :=
  ⟨a, b, PatternType.Checker, perturb, none⟩

/-- Pattern::stripe. -/
def stripe (a b : Colour) (perturb : Bool) : Pattern :=
  ⟨a, b, PatternType.Stripe, perturb, none⟩

/-- Pattern::perturb, the coordinate displacement applied by every pattern
lookup; `noise` stands for the perlin_noise function of the source, which is
an external collaborator per the specification.  The third component of the
source genuinely starts from point.y (a quirk kept verbatim). -/
def perturbFn (noise : ℚ → ℚ → ℚ → ℚ) (p : Pattern) (point : TypedVec) : ℚ × ℚ × ℚ :=
  if !p.perturb then (point.x, point.y, point.z)
  else
    (point.x + noise point.x point.y point.z * (1 / 100),
     point.y + noise point.x point.y (point.z + 1) * (1 / 100),
     point.y + noise point.x point.y (point.z + 2) * (1 / 100))

/-- Pattern::checker_at.  In the source the test is
x.floor() + y.floor() + z.floor() % 2.0 == 0.0, and % binds tighter than +,
so the mod 2 applies to the z term only; % on f64 truncates toward zero,
which on the integer outputs of floor is Int.tmod. -/
def checker_at (noise : ℚ → ℚ → ℚ → ℚ) (p : Pattern) (point : TypedVec) : Colour :=
  let c := perturbFn noise p point
  if (⌊c.1⌋ + ⌊c.2.1⌋ + Int.tmod ⌊c.2.2⌋ 2 : ℤ) = 0 then p.a else p.b

/-- Pattern::gradient_at. -/
def gradient_at (noise : ℚ → ℚ → ℚ → ℚ) (p : Pattern) (point : TypedVec) : Colour :=
  let c := perturbFn noise p point
  let d := p.b - p.a
  let f := c.1 - (⌊c.1⌋ : ℚ)
  p.a + d * (Colour.new f f f)

/-- Pattern::ring_at, with f64::sqrt passed explicitly. -/
def ring_at (sq : ℚ → ℚ) (noise : ℚ → ℚ → ℚ → ℚ) (p : Pattern) (point : TypedVec) : Colour :=
  let c := perturbFn noise p point
  if Int.tmod ⌊sq (c.1 ^ 2 + c.2.2 ^ 2)⌋ 2 = 0 then p.a else p.b

/-- Pattern::stripe_at. -/
def stripe_at (noise : ℚ → ℚ → ℚ → ℚ) (p : Pattern) (point : TypedVec) : Colour :=
  let c := perturbFn noise p point
  if Int.tmod ⌊c.1⌋ 2 = 0 then p.a else p.b

/-- Pattern::test_pattern_at. -/
def test_pattern_at (point : TypedVec) : Colour := Colour.new point.x point.y point.z

/-- Pattern::at, dispatching on the pattern type (at is a Lean keyword, hence
the name atPoint). -/
def atPoint (sq : ℚ → ℚ) (noise : ℚ → ℚ → ℚ → ℚ) (p : Pattern) (point : TypedVec) : Colour :=
  match p.is with
  | PatternType.Checker => checker_at noise p point
  | PatternType.Gradient => gradient_at noise p point
  | PatternType.Ring => ring_at sq noise p point
  | PatternType.Stripe => stripe_at noise p point
  | PatternType.NoType => test_pattern_at point

end Pattern

/-- Material.  The material.rs snapshot in the tree lists ambient, colour,
diffuse, shininess, specular and pattern; the reflective, transparency and
refractive_index fields are read and written throughout world.rs, sphere.rs
and intersection.rs and are part of the data model of the specification, so
they are included here with the standard defaults those call sites rely on
(reflective 0, transparency 0, refractive_index 1). -/
structure Material where
  ambient : ℚ
  colour : Colour
  diffuse : ℚ
  shininess : ℚ
  specular : ℚ
  pattern : Option Pattern
  reflective : ℚ
  transparency : ℚ
  refractive_index : ℚ
deriving DecidableEq

namespace Material

/-- Default for Material. -/
def default : Material :=
  ⟨1 / 10, WHITE, 9 / 10, 200, 9 / 10, none, 0, 0, 1⟩

end Material

/-- Shape kinds covered by this development (the world of the claims under
verification holds spheres and planes). -/
inductive ShapeKind where
  | sphere
  | plane
deriving DecidableEq

/-- A scene object: one concrete shape behind the dyn Hittable trait object.
The id field stands for the reference identity of the Rust object — distinct
scene objects have distinct ids — and is deliberately not consulted by
shapeEq, which models the PartialEq impl for trait objects. -/
structure Shape where
  id : ℕ
  kind : ShapeKind
  material : Material
  transform : Option Matrix
deriving DecidableEq

/-- PartialEq for dyn Hittable trait objects (hittable.rs and sphere.rs):
structural comparison of material and transform only; neither the concrete
type of the shape nor its identity takes part. -/
def shapeEq (a b : Shape) : Bool :=
  a.material = b.material && a.transform = b.transform

/-- Sphere::glass. -/
def Shape.glass (id : ℕ) : Shape :=
  ⟨id, ShapeKind.sphere,
    { Material.default with transparency := 1, refractive_index := 3 / 2 }, none⟩

/-- Intersection from intersection.rs: a hit parameter and the object hit. -/
structure Intersection where
  t : ℚ
  obj : Shape
deriving DecidableEq

/-- The derived PartialEq for Intersection: t together with the trait-object
equality of obj. -/
def interEq (a b : Intersection) : Bool :=
  a.t = b.t && shapeEq a.obj b.obj

/-- Intersections::hit — sort ascending by t (slice::sort_by is a stable
comparison sort, modelled by insertionSort), then the first entry with
t strictly positive. -/
def Intersections.hit (xs : List Intersection) : Option Intersection :=
  ((xs.insertionSort fun a b => a.t ≤ b.t).filter fun x => decide (0 < x.t)).head?

/-- Sphere::intersect (sphere.rs): transform the ray into object space by the
unwrapped inverse transform, then solve the quadratic of the unit sphere at
the origin; f64::sqrt of the discriminant is the abstract sq. -/
def sphereIntersect (sq : ℚ → ℚ) (s : Shape) (ray : Ray) : List Intersection :=
  let ray :=
    match s.transform with
    | some t => ray.transform t.inverseD
    | none => ray
  let sphere_to_ray := ray.origin - TypedVec.point 0 0 0
  let a := ray.direction.dot_product ray.direction
  let b := 2 * ray.direction.dot_product sphere_to_ray
  let c := sphere_to_ray.dot_product sphere_to_ray - 1
  let d := b ^ 2 - 4 * a * c
  if d < 0 then []
  else [⟨(-b - sq d) / (2 * a), s⟩, ⟨(-b + sq d) / (2 * a), s⟩]

/-- Plane::local_intersect (plane.rs).  The parallel test |direction.y| < ε
is made on the incoming ray; the hit parameter is then computed on the ray
transformed into the local space of the plane by the unwrapped inverse
transform. -/
def planeLocalIntersect (p : Shape) (ray : Ray) : List Intersection :=
  if |ray.direction.y| < EPSILON then []
  else
    let ray :=
      match p.transform with
      | some t => ray.transform t.inverseD
      | none => ray
    [⟨-ray.origin.y / ray.direction.y, p⟩]

/-- Dispatch of dyn Hittable intersect over the shape kinds of this
development (Hittable for Sphere and Hittable for Plane). -/
def shapeIntersect (sq : ℚ → ℚ) (s : Shape) (ray : Ray) : List Intersection :=
  match s.kind with
  | ShapeKind.sphere => sphereIntersect sq s ray
  | ShapeKind.plane => planeLocalIntersect s ray

/-- Normal computation per shape kind: Sphere::normal_at propagates a failed
transform inversion as an error (the source uses the ? operator); the plane
normal is constant. -/
def normalAt (sq : ℚ → ℚ) (s : Shape) (p : TypedVec) : Except String TypedVec :=
  match s.kind with
  | ShapeKind.sphere =>
    let c := TypedVec.point 0 0 0
    match s.transform with
    | some t => do
      let ti ← t.inverse
      let object_point := ti.mulTV p
      let object_normal := object_point - c
      let world_normal := ti.transpose.mulTV object_normal
      let world_normal := { world_normal with w := 0 }
      pure (world_normal.normalize sq)
    | none => pure ((p - c).normalize sq)
  | ShapeKind.plane => pure (TypedVec.vector 0 1 0)

/-- Innermost entry of the containers stack read by precompute: 1.0 when the
stack is empty, otherwise the refractive index of the last element. -/
def innermostRI (containers : List Shape) : ℚ :=
  match containers.getLast? with
  | none => 1
  | some o => o.material.refractive_index

/-- Membership toggle on the containers stack of precompute: if the stack
holds an object that compares equal (trait-object equality), retain only the
unequal ones, otherwise push the object at the end. -/
def toggle (containers : List Shape) (obj : Shape) : List Shape :=
  if containers.any fun x => shapeEq x obj then
    containers.filter fun x => !shapeEq x obj
  else containers ++ [obj]

/-- The loop of Intersection::precompute that computes (n1, n2): walk the
list, record n1 when the hit entry is reached (before the toggle) and n2
right after the toggle, then break. -/
def n1n2Loop (self : Intersection) : List Intersection → List Shape → ℚ × ℚ → ℚ × ℚ
  | [], _, acc => acc
  | i :: rest, containers, acc =>
    let n1 := if interEq self i then innermostRI containers else acc.1
    let containers := toggle containers i.obj
    if interEq self i then (n1, innermostRI containers)
    else n1n2Loop self rest containers (n1, acc.2)

/-- PreComp from intersection.rs. -/
structure PreComp where
  eyev : TypedVec
  inside : Bool
  normalv : TypedVec
  obj : Shape
  point : TypedVec
  over_point : TypedVec
  under_point : TypedVec
  reflectv : TypedVec
  t : ℚ
  n1 : ℚ
  n2 : ℚ
deriving DecidableEq

/-- Intersection::precompute.  The unwrap of normal_at is modelled with the
zero vector as the (never reached) panic value. -/
def precompute (sq : ℚ → ℚ) (self : Intersection) (ray : Ray) (xs : List Intersection) :
    PreComp :=
  let point := ray.position self.t
  let normalv := unwrapD (normalAt sq self.obj point) (TypedVec.vector 0 0 0)
  let eyev := -ray.direction
  let flip := decide (normalv.dot_product eyev < 0)
  let normalv := if flip then -normalv else normalv
  let over_point := point + normalv.smul EPSILON
  let under_point := point - normalv.smul EPSILON
  let reflectv := ray.direction.reflect normalv
  let n := n1n2Loop self xs [] (0, 0)
  ⟨eyev, flip, normalv, self.obj, point, over_point, under_point, reflectv, self.t, n.1, n.2⟩

/-- PreComp::schlick, with f64::sqrt passed explicitly.  The shared tail
after the conditional cosine replacement is written out in both branches. -/
def schlick (sq : ℚ → ℚ) (pc : PreComp) : ℚ :=
  let cos := pc.eyev.dot_product pc.normalv
  if pc.n2 < pc.n1 then
    let n := pc.n1 / pc.n2
    let sin2_t := n ^ 2 * (1 - cos ^ 2)
    if 1 < sin2_t then 1
    else
      let cos_t := sq (1 - sin2_t)
      let r0 := ((pc.n1 - pc.n2) / (pc.n1 + pc.n2)) ^ 2
      r0 + (1 - r0) * (1 - cos_t) ^ 5
  else
    let r0 := ((pc.n1 - pc.n2) / (pc.n1 + pc.n2)) ^ 2
    r0 + (1 - r0) * (1 - cos) ^ 5

/-- The default pattern_at of the Hittable trait: the point is taken through
the inverse object transform, then the inverse pattern transform, and the
pattern is evaluated there; a failed inversion propagates as an error. -/
def pattern_at (sq : ℚ → ℚ) (noise : ℚ → ℚ → ℚ → ℚ) (obj : Shape) (pattern : Pattern)
    (point : TypedVec) : Except String Colour := do
  let object_point ←
    match obj.transform with
    | some t => do pure ((← t.inverse).mulTV point)
    | none => pure point
  let world_point ←
    match pattern.transform with
    | some p => do pure ((← p.inverse).mulTV object_point)
    | none => pure object_point
  pure (pattern.atPoint sq noise world_point)

/-- Point light from lighting.rs. -/
structure Point where
  intensity : Colour
  position : TypedVec
deriving DecidableEq

/-- Material::lighting, with f64::sqrt and f64::powf passed explicitly; the
unwrap of the pattern lookup uses BLACK as the (never reached) panic value. -/
def lighting (sq : ℚ → ℚ) (pw : ℚ → ℚ → ℚ) (noise : ℚ → ℚ → ℚ → ℚ) (m : Material)
    (object : Shape) (light : Point) (point eyev normalv : TypedVec) (in_shadow : Bool) :
    Colour :=
  let colour :=
    (match m.pattern with
      | some pattern => unwrapD (pattern_at sq noise object pattern point) BLACK
      | none => m.colour) * light.intensity
  let lightv := (light.position - point).normalize sq
  let ambient := colour * m.ambient
  if in_shadow then ambient
  else
    let light_dot_normal := lightv.dot_product normalv
    let ds : Colour × Colour :=
      if light_dot_normal < 0 then (BLACK, BLACK)
      else
        let diffuse := colour * m.diffuse * light_dot_normal
        let reflectv := -(lightv.reflect normalv)
        let reflect_dot_eye := reflectv.dot_product eyev
        let specular :=
          if reflect_dot_eye ≤ 0 then BLACK
          else
            let f := pw reflect_dot_eye m.shininess
            light.intensity * m.specular * f
        (diffuse, specular)
    ambient + ds.1 + ds.2

/-- World from world.rs: the light and the object collection. -/
structure World where
  light : Point
  objects : List Shape

/-- World::intersect: collect the intersections of every object and sort
ascending by t. -/
def worldIntersect (sq : ℚ → ℚ) (w : World) (ray : Ray) : List Intersection :=
  ((w.objects.flatMap fun o => shapeIntersect sq o ray).insertionSort fun a b => a.t ≤ b.t)

/-- World::is_shadowed. -/
def is_shadowed (sq : ℚ → ℚ) (w : World) (point : TypedVec) : Bool :=
  let v := w.light.position - point
  let distance := v.magnitude sq
  let toward := v.normalize sq
  let r : Ray := ⟨point, toward⟩
  match Intersections.hit (worldIntersect sq w r) with
  | some hit => decide (hit.t < distance)
  | none => false

mutual

/-- World::colour_at (world.rs): intersect the world, take the hit — black if
there is none — then precompute and shade; total by recursion on the
remaining-bounce budget, which strictly decreases through the reflected and
refracted secondary rays. -/
def colour_at (sq : ℚ → ℚ) (pw : ℚ → ℚ → ℚ) (noise : ℚ → ℚ → ℚ → ℚ) (w : World)
    (ray : Ray) (remaining : ℕ) : Colour :=
  let xs := worldIntersect sq w ray
  match Intersections.hit xs with
  | none => BLACK
  | some x => shade_hit sq pw noise w (precompute sq x ray xs) remaining
termination_by 3 * remaining + 2

/-- World::shade_hit: surface lighting plus the reflected and refracted
contributions, blended through the Schlick reflectance when the material is
both reflective and transparent. -/
def shade_hit (sq : ℚ → ℚ) (pw : ℚ → ℚ → ℚ) (noise : ℚ → ℚ → ℚ → ℚ) (w : World)
    (comps : PreComp) (remaining : ℕ) : Colour :=
  let shadowed := is_shadowed sq w comps.over_point
  let surface :=
    lighting sq pw noise comps.obj.material comps.obj w.light comps.over_point comps.eyev
      comps.normalv shadowed
  let reflected := reflected_colour sq pw noise w comps remaining
  let refracted := refracted_colour sq pw noise w comps remaining
  let m := comps.obj.material
  if 0 < m.reflective ∧ 0 < m.transparency then
    let r := schlick sq comps
    surface + reflected * r + refracted * (1 - r)
  else surface + reflected + refracted
termination_by 3 * remaining + 1

/-- World::reflected_colour: black when the budget is exhausted or the
material is not reflective; otherwise one secondary ray from the over point
along the reflection vector, recursing with remaining − 1. -/
def reflected_colour (sq : ℚ → ℚ) (pw : ℚ → ℚ → ℚ) (noise : ℚ → ℚ → ℚ → ℚ) (w : World)
    (comps : PreComp) (remaining : ℕ) : Colour :=
  if _h : remaining < 1 then BLACK
  else if comps.obj.material.reflective = 0 then BLACK
  else
    let r : Ray := ⟨comps.over_point, comps.reflectv⟩
    let colour := colour_at sq pw noise w r (remaining - 1)
    colour * comps.obj.material.reflective
termination_by 3 * remaining

/-- World::refracted_colour: black when the budget is exhausted, the material
is opaque, or total internal reflection occurs; otherwise one secondary ray
from the under point along the Snell refraction direction, recursing with
remaining − 1. -/
def refracted_colour (sq : ℚ → ℚ) (pw : ℚ → ℚ → ℚ) (noise : ℚ → ℚ → ℚ → ℚ) (w : World)
    (comps : PreComp) (remaining : ℕ) : Colour :=
  if _h : remaining < 1 then BLACK
  else if comps.obj.material.transparency = 0 then BLACK
  else
    let n_ratio := comps.n1 / comps.n2
    let cos_i := comps.eyev.dot_product comps.normalv
    let sin2_t := n_ratio ^ 2 * (1 - cos_i ^ 2)
    if 1 < sin2_t then BLACK
    else
      let cos_t := sq (1 - sin2_t)
      let direction := comps.normalv.smul (n_ratio * cos_i - cos_t) - comps.eyev.smul n_ratio
      let refract : Ray := ⟨comps.under_point, direction⟩
      colour_at sq pw noise w refract (remaining - 1) * comps.obj.material.transparency
termination_by 3 * remaining

end

/-! Theorems. -/

instance : IsTotal Intersection fun a b => a.t ≤ b.t :=
  ⟨fun a b => le_total a.t b.t⟩

instance : IsTrans Intersection fun a b => a.t ≤ b.t :=
  ⟨fun _ _ _ hab hbc => le_trans hab hbc⟩

/-- C1.  Intersections::hit returns none exactly when the collection is empty
or every entry has t ≤ 0; when it returns an entry, that entry belongs to the
collection, has strictly positive t (so t = 0 is never selected), and its t
is minimal among the entries with positive t — the two spec phrasings
(first positive after an ascending sort; lowest non-negative) agree. -/
theorem hit_spec (xs : List Intersection) :
    (Intersections.hit xs = none ↔ ∀ i ∈ xs, i.t ≤ 0) ∧
    (∀ i, Intersections.hit xs = some i →
      i ∈ xs ∧ 0 < i.t ∧ ∀ j ∈ xs, 0 < j.t → i.t ≤ j.t) := by
  have hperm := List.perm_insertionSort (fun a b : Intersection => a.t ≤ b.t) xs
  have hsorted := List.sorted_insertionSort (fun a b : Intersection => a.t ≤ b.t) xs
  constructor
  · rw [Intersections.hit, List.head?_eq_none_iff, List.filter_eq_nil_iff]
    constructor
    · intro hf i hi
      have := hf i (hperm.mem_iff.mpr hi)
      simpa using this
    · intro hle i hi
      have := hle i (hperm.mem_iff.mp hi)
      simpa using this
  · intro i hi
    rw [Intersections.hit] at hi
    rcases hfl : (xs.insertionSort fun a b => a.t ≤ b.t).filter
        (fun x => decide (0 < x.t)) with _ | ⟨a, tl⟩
    · rw [hfl] at hi; simp at hi
    · rw [hfl] at hi
      simp only [List.head?_cons, Option.some.injEq] at hi
      subst hi
      have hmemf : a ∈ (xs.insertionSort fun a b => a.t ≤ b.t).filter
          (fun x => decide (0 < x.t)) := by
        rw [hfl]; exact List.mem_cons_self _ _
      have hmems : a ∈ xs.insertionSort fun a b => a.t ≤ b.t :=
        List.mem_of_mem_filter hmemf
      have hpos : 0 < a.t := by simpa using List.of_mem_filter hmemf
      refine ⟨hperm.mem_iff.mp hmems, hpos, ?_⟩
      intro j hj hjpos
      have hjs : j ∈ xs.insertionSort fun a b => a.t ≤ b.t := hperm.mem_iff.mpr hj
      have hjf : j ∈ (xs.insertionSort fun a b => a.t ≤ b.t).filter
          (fun x => decide (0 < x.t)) :=
        List.mem_filter.mpr ⟨hjs, by simpa using hjpos⟩
      rw [hfl] at hjf
      rcases List.mem_cons.mp hjf with rfl | hjtl
      · exact le_refl _
      · have hsf := hsorted.filter (fun x => decide (0 < x.t))
        rw [hfl] at hsf
        exact List.rel_of_sorted_cons hsf j hjtl

/-- Witness for C1 at the intersection collection of the specification,
t = {5, 7, −3, 2}: the selected hit has t = 2, it belongs to the collection,
is positive, and is minimal among the positive entries. -/
theorem hit_spec_witness :
    Intersections.hit
        [⟨5, Shape.glass 0⟩, ⟨7, Shape.glass 0⟩, ⟨-3, Shape.glass 0⟩, ⟨2, Shape.glass 0⟩] =
      some ⟨2, Shape.glass 0⟩ ∧
    (⟨2, Shape.glass 0⟩ : Intersection) ∈
        [⟨5, Shape.glass 0⟩, ⟨7, Shape.glass 0⟩, ⟨-3, Shape.glass 0⟩, ⟨2, Shape.glass 0⟩] ∧
    (0 : ℚ) < 2 ∧
    ∀ j ∈ [(⟨5, Shape.glass 0⟩ : Intersection), ⟨7, Shape.glass 0⟩, ⟨-3, Shape.glass 0⟩,
        ⟨2, Shape.glass 0⟩], 0 < j.t → (2 : ℚ) ≤ j.t := by
  have h : Intersections.hit
      [⟨5, Shape.glass 0⟩, ⟨7, Shape.glass 0⟩, ⟨-3, Shape.glass 0⟩, ⟨2, Shape.glass 0⟩] =
      some ⟨2, Shape.glass 0⟩ := by with_unfolding_all decide
  exact ⟨h, (hit_spec _).2 _ h⟩

/-- The n1/n2 loop of precompute, evaluated on a list split at the first
entry that compares equal to the hit: the walk folds the membership toggle
over the prefix and stops at the hit entry. -/
theorem n1n2Loop_split (self i : Intersection) (post : List Intersection)
    (hi : interEq self i = true) :
    ∀ (pre : List Intersection) (containers : List Shape) (acc : ℚ × ℚ),
      (∀ j ∈ pre, interEq self j = false) →
      n1n2Loop self (pre ++ i :: post) containers acc =
        (innermostRI (pre.foldl (fun c j => toggle c j.obj) containers),
         innermostRI (toggle (pre.foldl (fun c j => toggle c j.obj) containers) i.obj)) := by
  intro pre
  induction pre with
  | nil =>
    intro containers acc _
    simp [n1n2Loop, hi]
  | cons j pre ih =>
    intro containers acc hpre
    have hj : interEq self j = false := hpre j (List.mem_cons_self _ _)
    have hrest : ∀ k ∈ pre, interEq self k = false := fun k hk =>
      hpre k (List.mem_cons_of_mem _ hk)
    simp only [List.cons_append, n1n2Loop, hj, Bool.false_eq_true, if_false, List.foldl_cons]
    exact ih (toggle containers j.obj) _ hrest

/-- C4.  For a ray and an intersection list that contains the hit, precompute
walks the list keeping a stack of currently-entered objects: n1 is the
refractive index of the innermost (most recently pushed) object of the stack
accumulated over the entries before the hit entry — 1 when that stack is
empty — and n2 is the innermost index after toggling the membership of the
hit object — 1 when the stack is then empty.  The entries after the hit entry
are universally quantified and unconstrained: the walk stops at the hit. -/
theorem precompute_n1n2 (sq : ℚ → ℚ) (self i : Intersection) (ray : Ray)
    (pre post : List Intersection)
    (hpre : ∀ j ∈ pre, interEq self j = false) (hi : interEq self i = true) :
    (precompute sq self ray (pre ++ i :: post)).n1 =
      innermostRI (pre.foldl (fun c j => toggle c j.obj) []) ∧
    (precompute sq self ray (pre ++ i :: post)).n2 =
      innermostRI (toggle (pre.foldl (fun c j => toggle c j.obj) []) i.obj) := by
  have h := n1n2Loop_split self i post hi pre [] (0, 0) hpre
  constructor
  · show (n1n2Loop self (pre ++ i :: post) [] (0, 0)).1 = _
    rw [h]
  · show (n1n2Loop self (pre ++ i :: post) [] (0, 0)).2 = _
    rw [h]

/-- Witness for C4: three nested glass spheres with refractive indices 3/2, 2
and 5/2; at the third entry of the list the walk yields n1 = 2 (the innermost
containing object) and n2 = 5/2 (after entering the hit object), regardless
of the trailing entry. -/
theorem precompute_n1n2_witness :
    (precompute (fun _ => 0)
        ⟨3, ⟨2, ShapeKind.sphere,
          { Material.default with transparency := 1, refractive_index := 5 / 2 }, none⟩⟩
        ⟨TypedVec.point 0 0 0, TypedVec.vector 0 0 1⟩
        ([⟨2, Shape.glass 0⟩,
          ⟨5 / 2, ⟨1, ShapeKind.sphere,
            { Material.default with transparency := 1, refractive_index := 2 }, none⟩⟩] ++
          ⟨3, ⟨2, ShapeKind.sphere,
            { Material.default with transparency := 1, refractive_index := 5 / 2 }, none⟩⟩ ::
          [⟨7, Shape.glass 0⟩])).n1 = 2 ∧
    (precompute (fun _ => 0)
        ⟨3, ⟨2, ShapeKind.sphere,
          { Material.default with transparency := 1, refractive_index := 5 / 2 }, none⟩⟩
        ⟨TypedVec.point 0 0 0, TypedVec.vector 0 0 1⟩
        ([⟨2, Shape.glass 0⟩,
          ⟨5 / 2, ⟨1, ShapeKind.sphere,
            { Material.default with transparency := 1, refractive_index := 2 }, none⟩⟩] ++
          ⟨3, ⟨2, ShapeKind.sphere,
            { Material.default with transparency := 1, refractive_index := 5 / 2 }, none⟩⟩ ::
          [⟨7, Shape.glass 0⟩])).n2 = 5 / 2 := by
  obtain ⟨h1, h2⟩ :=
    precompute_n1n2 (fun _ => 0)
      ⟨3, ⟨2, ShapeKind.sphere,
        { Material.default with transparency := 1, refractive_index := 5 / 2 }, none⟩⟩
      ⟨3, ⟨2, ShapeKind.sphere,
        { Material.default with transparency := 1, refractive_index := 5 / 2 }, none⟩⟩
      ⟨TypedVec.point 0 0 0, TypedVec.vector 0 0 1⟩
      [⟨2, Shape.glass 0⟩,
        ⟨5 / 2, ⟨1, ShapeKind.sphere,
          { Material.default with transparency := 1, refractive_index := 2 }, none⟩⟩]
      [⟨7, Shape.glass 0⟩]
      (by with_unfolding_all decide) (by with_unfolding_all decide)
  exact ⟨h1.trans (by with_unfolding_all decide), h2.trans (by with_unfolding_all decide)⟩

/-- C10.  Equality of shapes behind the trait object is structural: it holds
exactly when the materials and the transforms agree, ignoring identity (and
the concrete shape type); the hit entry is likewise matched by t together
with that structural object equality.  Consequently, in the refractive-index
walk of precompute two distinct scene objects with equal material and
transform are treated as the same object: with two such glass spheres the
second entry of the walk cancels the first instead of nesting inside it, so
the hit at t = 3 sees n1 = 1 (empty stack) rather than the refractive index
3/2 of the enclosing sphere. -/
theorem shape_equality_structural :
    (∀ s1 s2 : Shape, shapeEq s1 s2 = true ↔
      s1.material = s2.material ∧ s1.transform = s2.transform) ∧
    (∀ i1 i2 : Intersection, interEq i1 i2 = true ↔
      i1.t = i2.t ∧ i1.obj.material = i2.obj.material ∧
        i1.obj.transform = i2.obj.transform) ∧
    (Shape.glass 0 ≠ Shape.glass 1 ∧ shapeEq (Shape.glass 0) (Shape.glass 1) = true ∧
      (precompute (fun _ => 0) ⟨3, Shape.glass 0⟩
          ⟨TypedVec.point 0 0 0, TypedVec.vector 0 0 1⟩
          [⟨1, Shape.glass 0⟩, ⟨2, Shape.glass 1⟩, ⟨3, Shape.glass 0⟩]).n1 = 1 ∧
      (precompute (fun _ => 0) ⟨3, Shape.glass 0⟩
          ⟨TypedVec.point 0 0 0, TypedVec.vector 0 0 1⟩
          [⟨1, Shape.glass 0⟩, ⟨2, Shape.glass 1⟩, ⟨3, Shape.glass 0⟩]).n2 = 3 / 2) ∧
    ((⟨3, Shape.glass 0⟩ : Intersection) ≠ ⟨3, Shape.glass 1⟩ ∧
      interEq ⟨3, Shape.glass 0⟩ ⟨3, Shape.glass 1⟩ = true) := by
  refine ⟨?_, ?_, ?_, ?_⟩
  · intro s1 s2
    simp [shapeEq]
  · intro i1 i2
    simp [interEq, shapeEq, and_assoc]
  · exact ⟨by with_unfolding_all decide, by with_unfolding_all decide,
      by with_unfolding_all decide, by with_unfolding_all decide⟩
  · exact ⟨by with_unfolding_all decide, by with_unfolding_all decide⟩

/-- Witness for C10: reading off the concrete facts of the theorem — two
glass spheres distinct as scene objects yet equal as trait objects, and the
collapsed refractive-index walk. -/
theorem shape_equality_structural_witness :
    shapeEq (Shape.glass 0) (Shape.glass 1) = true ∧
    (precompute (fun _ => 0) ⟨3, Shape.glass 0⟩
        ⟨TypedVec.point 0 0 0, TypedVec.vector 0 0 1⟩
        [⟨1, Shape.glass 0⟩, ⟨2, Shape.glass 1⟩, ⟨3, Shape.glass 0⟩]).n1 = 1 :=
  ⟨shape_equality_structural.2.2.1.2.1, shape_equality_structural.2.2.1.2.2.1⟩

/-- roundf from the test helpers: round to a fixed number of decimals. -/
def roundf (val factor : ℚ) : ℚ := (round (val * factor) : ℚ) / factor

/-- C9.  The checker pattern (without perturbation) returns colour a exactly
when floor(x) + floor(y) + (floor(z) tmod 2) is zero and colour b otherwise:
the mod-2 of the reference behaviour applies to the z term only.  At the
point (1, 1, 0) this differs from whole-sum parity: the whole sum 2 is even,
yet the reference condition 1 + 1 + 0 is nonzero, so b (here BLACK) is
returned, not a. -/
theorem checker_at_parity (noise : ℚ → ℚ → ℚ → ℚ) (p : Pattern) (point : TypedVec)
    (hp : p.perturb = false) :
    Pattern.checker_at noise p point =
      (if (⌊point.x⌋ + ⌊point.y⌋ + Int.tmod ⌊point.z⌋ 2 : ℤ) = 0 then p.a else p.b) ∧
    (Int.tmod (⌊(1 : ℚ)⌋ + ⌊(1 : ℚ)⌋ + ⌊(0 : ℚ)⌋) 2 = 0 ∧
      (⌊(1 : ℚ)⌋ + ⌊(1 : ℚ)⌋ + Int.tmod ⌊(0 : ℚ)⌋ 2 : ℤ) ≠ 0 ∧
      Pattern.checker_at noise (Pattern.checker WHITE BLACK false)
        (TypedVec.point 1 1 0) = BLACK ∧ WHITE ≠ BLACK) := by
  constructor
  · simp [Pattern.checker_at, Pattern.perturbFn, hp]
  · refine ⟨by decide, by decide, ?_, by decide⟩
    simp [Pattern.checker_at, Pattern.perturbFn, Pattern.checker, TypedVec.point]

/-- Witness for C9 at the checker test points of the source: z = 0.99 gives
colour a, z = 1.1 gives colour b. -/
theorem checker_at_parity_witness :
    Pattern.checker_at (fun _ _ _ => 0) (Pattern.checker WHITE BLACK false)
        (TypedVec.point 0 0 (99 / 100)) = WHITE ∧
    Pattern.checker_at (fun _ _ _ => 0) (Pattern.checker WHITE BLACK false)
        (TypedVec.point 0 0 (11 / 10)) = BLACK := by
  constructor
  · exact ((checker_at_parity (fun _ _ _ => 0) (Pattern.checker WHITE BLACK false)
      (TypedVec.point 0 0 (99 / 100)) rfl).1).trans (by with_unfolding_all decide)
  · exact ((checker_at_parity (fun _ _ _ => 0) (Pattern.checker WHITE BLACK false)
      (TypedVec.point 0 0 (11 / 10)) rfl).1).trans (by with_unfolding_all decide)

/-- C7.  Plane::local_intersect yields no intersection when the y-component
of the direction of the given ray is within ε of zero; otherwise it yields
exactly one intersection whose t is −origin.y / direction.y of the ray taken
in the local space of the plane: the ray transformed by the inverse of the
plane transform when one is present (and invertible — a non-invertible one
panics in the source), the ray itself otherwise. -/
theorem plane_local_intersect_spec (p : Shape) (ray : Ray) :
    (|ray.direction.y| < EPSILON → planeLocalIntersect p ray = []) ∧
    (¬|ray.direction.y| < EPSILON → p.transform = none →
      planeLocalIntersect p ray = [⟨-ray.origin.y / ray.direction.y, p⟩]) ∧
    (∀ t : Matrix, ¬|ray.direction.y| < EPSILON → p.transform = some t → t.invertible →
      ∃ ti, t.inverse = Except.ok ti ∧
        planeLocalIntersect p ray =
          [⟨-(ray.transform ti).origin.y / (ray.transform ti).direction.y, p⟩]) := by
  refine ⟨?_, ?_, ?_⟩
  · intro h
    simp [planeLocalIntersect, h]
  · intro h hnone
    simp [planeLocalIntersect, h, hnone]
  · intro t h hsome hinv
    have hok : t.inverse = Except.ok (Matrix.inverseD t) := by
      rw [Matrix.inverse, if_pos hinv, Matrix.inverseD, Matrix.inverse, if_pos hinv, unwrapD]
    refine ⟨Matrix.inverseD t, hok, ?_⟩
    simp [planeLocalIntersect, h, hsome]

/-- Witness for C7: the ray of the specification from (0, 1, 0) in direction
(0, −1, 0) meets the canonical plane in exactly one intersection at t = 1;
a ray with direction y-component zero yields none. -/
theorem plane_local_intersect_witness :
    planeLocalIntersect ⟨1, ShapeKind.plane, Material.default, none⟩
        ⟨TypedVec.point 0 1 0, TypedVec.vector 0 (-1) 0⟩ =
      [⟨1, ⟨1, ShapeKind.plane, Material.default, none⟩⟩] ∧
    planeLocalIntersect ⟨1, ShapeKind.plane, Material.default, none⟩
        ⟨TypedVec.point 0 10 0, TypedVec.vector 0 0 1⟩ = [] := by
  constructor
  · exact ((plane_local_intersect_spec ⟨1, ShapeKind.plane, Material.default, none⟩
      ⟨TypedVec.point 0 1 0, TypedVec.vector 0 (-1) 0⟩).2.1
        (by with_unfolding_all decide) rfl).trans (by with_unfolding_all decide)
  · exact (plane_local_intersect_spec ⟨1, ShapeKind.plane, Material.default, none⟩
      ⟨TypedVec.point 0 10 0, TypedVec.vector 0 0 1⟩).1 (by with_unfolding_all decide)

/-- C5.  PreComp::schlick: under total internal reflection (n1 > n2 and the
sine-squared of the refraction angle exceeds 1) the reflectance is 1;
otherwise it is r0 + (1 − r0)·(1 − cos)⁵ with r0 = ((n1−n2)/(n1+n2))², where
cos is the eye–normal cosine, replaced by the refracted-angle cosine
sqrt(1 − sin²) when n1 > n2; at normal incidence from index-3/2 glass to air
the value rounds to 0.04 = 1/25 at five decimals. -/
theorem schlick_spec (sq : ℚ → ℚ) (pc : PreComp) :
    (pc.n2 < pc.n1 →
      1 < (pc.n1 / pc.n2) ^ 2 * (1 - pc.eyev.dot_product pc.normalv ^ 2) →
      schlick sq pc = 1) ∧
    (pc.n2 < pc.n1 →
      ¬1 < (pc.n1 / pc.n2) ^ 2 * (1 - pc.eyev.dot_product pc.normalv ^ 2) →
      schlick sq pc =
        ((pc.n1 - pc.n2) / (pc.n1 + pc.n2)) ^ 2 +
          (1 - ((pc.n1 - pc.n2) / (pc.n1 + pc.n2)) ^ 2) *
            (1 - sq (1 - (pc.n1 / pc.n2) ^ 2 *
              (1 - pc.eyev.dot_product pc.normalv ^ 2))) ^ 5) ∧
    (¬pc.n2 < pc.n1 →
      schlick sq pc =
        ((pc.n1 - pc.n2) / (pc.n1 + pc.n2)) ^ 2 +
          (1 - ((pc.n1 - pc.n2) / (pc.n1 + pc.n2)) ^ 2) *
            (1 - pc.eyev.dot_product pc.normalv) ^ 5) ∧
    (sq 1 = 1 → pc.n1 = 3 / 2 → pc.n2 = 1 → pc.eyev.dot_product pc.normalv = 1 →
      roundf (schlick sq pc) 100000 = 1 / 25) := by
  refine ⟨?_, ?_, ?_, ?_⟩
  · intro hgt htir
    rw [schlick, if_pos hgt, if_pos htir]
  · intro hgt htir
    rw [schlick, if_pos hgt, if_neg htir]
  · intro hle
    rw [schlick, if_neg hle]
  · intro hsq h1 h2 hcos
    rw [schlick, hcos, h1, h2, if_pos (by norm_num)]
    rw [if_neg (by norm_num)]
    norm_num
    rw [hsq]
    norm_num [roundf, round_eq]

/-- Witness for C5: a total-internal-reflection configuration returns 1, and
the normal-incidence glass-to-air configuration rounds to 1/25 = 0.04. -/
theorem schlick_spec_witness :
    schlick (fun x => if x = 1 then 1 else 0)
        ⟨TypedVec.vector 1 0 0, false, TypedVec.vector 0 1 0, Shape.glass 0,
          TypedVec.point 0 0 0, TypedVec.point 0 0 0, TypedVec.point 0 0 0,
          TypedVec.vector 0 0 0, 1, 3 / 2, 1⟩ = 1 ∧
    roundf
        (schlick (fun x => if x = 1 then 1 else 0)
          ⟨TypedVec.vector 0 0 (-1), true, TypedVec.vector 0 0 (-1), Shape.glass 0,
            TypedVec.point 0 0 1, TypedVec.point 0 0 1, TypedVec.point 0 0 1,
            TypedVec.vector 0 0 1, 1, 3 / 2, 1⟩) 100000 = 1 / 25 := by
  constructor
  · exact (schlick_spec (fun x => if x = 1 then 1 else 0) _).1
      (by with_unfolding_all decide) (by with_unfolding_all decide)
  · exact (schlick_spec (fun x => if x = 1 then 1 else 0) _).2.2.2
      (by with_unfolding_all decide) rfl rfl (by with_unfolding_all decide)

/-- C2.  colour_at is a total function of the remaining-bounce budget (its
definition above is accepted by structural descent on remaining), because
reflected_colour and refracted_colour return black without any recursive
call when the budget is zero or the relevant material coefficient
(reflective, respectively transparency) is zero, and the only recursive
colour_at calls they make pass remaining − 1. -/
theorem colour_at_recursion_guards (sq : ℚ → ℚ) (pw : ℚ → ℚ → ℚ)
    (noise : ℚ → ℚ → ℚ → ℚ) (w : World) (comps : PreComp) :
    reflected_colour sq pw noise w comps 0 = BLACK ∧
    refracted_colour sq pw noise w comps 0 = BLACK ∧
    (comps.obj.material.reflective = 0 →
      ∀ remaining, reflected_colour sq pw noise w comps remaining = BLACK) ∧
    (comps.obj.material.transparency = 0 →
      ∀ remaining, refracted_colour sq pw noise w comps remaining = BLACK) ∧
    (∀ remaining, 1 ≤ remaining → comps.obj.material.reflective ≠ 0 →
      reflected_colour sq pw noise w comps remaining =
        colour_at sq pw noise w ⟨comps.over_point, comps.reflectv⟩ (remaining - 1) *
          comps.obj.material.reflective) ∧
    (∀ remaining, 1 ≤ remaining → comps.obj.material.transparency ≠ 0 →
      ¬1 < (comps.n1 / comps.n2) ^ 2 * (1 - comps.eyev.dot_product comps.normalv ^ 2) →
      refracted_colour sq pw noise w comps remaining =
        colour_at sq pw noise w
          ⟨comps.under_point,
            comps.normalv.smul
                (comps.n1 / comps.n2 * comps.eyev.dot_product comps.normalv -
                  sq (1 - (comps.n1 / comps.n2) ^ 2 *
                    (1 - comps.eyev.dot_product comps.normalv ^ 2))) -
              comps.eyev.smul (comps.n1 / comps.n2)⟩ (remaining - 1) *
          comps.obj.material.transparency) := by
  refine ⟨?_, ?_, ?_, ?_, ?_, ?_⟩
  · rw [reflected_colour]; simp
  · rw [refracted_colour]; simp
  · intro h remaining
    rw [reflected_colour]
    simp [h]
  · intro h remaining
    rw [refracted_colour]
    simp [h]
  · intro remaining h1 hre
    rw [reflected_colour, dif_neg (by omega), if_neg hre]
  · intro remaining h1 htr htir
    rw [refracted_colour, dif_neg (by omega), if_neg htr, if_neg htir]

/-- Witness for C2: in a concrete world, with a precomputed hit whose
material has both coefficients zero, both secondary-colour functions return
black at a positive budget, and both return black at budget zero. -/
theorem colour_at_recursion_guards_witness :
    reflected_colour (fun _ => 0) (fun _ _ => 0) (fun _ _ _ => 0)
        ⟨⟨WHITE, TypedVec.point (-10) 10 (-10)⟩, []⟩
        ⟨TypedVec.vector 0 0 (-1), false, TypedVec.vector 0 0 (-1), Shape.glass 0,
          TypedVec.point 0 0 0, TypedVec.point 0 0 0, TypedVec.point 0 0 0,
          TypedVec.vector 0 0 0, 1, 1, 1⟩ 5 = BLACK ∧
    refracted_colour (fun _ => 0) (fun _ _ => 0) (fun _ _ _ => 0)
        ⟨⟨WHITE, TypedVec.point (-10) 10 (-10)⟩, []⟩
        ⟨TypedVec.vector 0 0 (-1), false, TypedVec.vector 0 0 (-1),
          ⟨7, ShapeKind.sphere, Material.default, none⟩,
          TypedVec.point 0 0 0, TypedVec.point 0 0 0, TypedVec.point 0 0 0,
          TypedVec.vector 0 0 0, 1, 1, 1⟩ 5 = BLACK ∧
    reflected_colour (fun _ => 0) (fun _ _ => 0) (fun _ _ _ => 0)
        ⟨⟨WHITE, TypedVec.point (-10) 10 (-10)⟩, []⟩
        ⟨TypedVec.vector 0 0 (-1), false, TypedVec.vector 0 0 (-1), Shape.glass 0,
          TypedVec.point 0 0 0, TypedVec.point 0 0 0, TypedVec.point 0 0 0,
          TypedVec.vector 0 0 0, 1, 1, 1⟩ 0 = BLACK := by
  refine ⟨?_, ?_, ?_⟩
  · exact (colour_at_recursion_guards (fun _ => 0) (fun _ _ => 0) (fun _ _ _ => 0)
      ⟨⟨WHITE, TypedVec.point (-10) 10 (-10)⟩, []⟩ _).2.2.1
      (by with_unfolding_all decide) 5
  · exact (colour_at_recursion_guards (fun _ => 0) (fun _ _ => 0) (fun _ _ _ => 0)
      ⟨⟨WHITE, TypedVec.point (-10) 10 (-10)⟩, []⟩ _).2.2.2.1
      (by with_unfolding_all decide) 5
  · exact (colour_at_recursion_guards (fun _ => 0) (fun _ _ => 0) (fun _ _ _ => 0)
      ⟨⟨WHITE, TypedVec.point (-10) 10 (-10)⟩, []⟩ _).1

/-- C8.  Material::lighting: with the shadow flag set the result is the
ambient term alone (ambient = surface colour × light intensity × ambient
coefficient, the surface colour coming from the pattern when one is
present); when not in shadow, diffuse and specular are both black whenever
the light-vector · normal dot product is negative; the specular alone is
black whenever the reflected-light · eye dot product is ≤ 0; otherwise the
result is ambient + diffuse + specular with the Phong formulas. -/
theorem lighting_spec (sq : ℚ → ℚ) (pw : ℚ → ℚ → ℚ) (noise : ℚ → ℚ → ℚ → ℚ)
    (m : Material) (object : Shape) (light : Point) (point eyev normalv : TypedVec) :
    (lighting sq pw noise m object light point eyev normalv true =
      (match m.pattern with
        | some pat => unwrapD (pattern_at sq noise object pat point) BLACK
        | none => m.colour) * light.intensity * m.ambient) ∧
    (((light.position - point).normalize sq).dot_product normalv < 0 →
      lighting sq pw noise m object light point eyev normalv false =
        (match m.pattern with
          | some pat => unwrapD (pattern_at sq noise object pat point) BLACK
          | none => m.colour) * light.intensity * m.ambient + BLACK + BLACK) ∧
    (0 ≤ ((light.position - point).normalize sq).dot_product normalv →
      (-(((light.position - point).normalize sq).reflect normalv)).dot_product eyev ≤ 0 →
      lighting sq pw noise m object light point eyev normalv false =
        (match m.pattern with
          | some pat => unwrapD (pattern_at sq noise object pat point) BLACK
          | none => m.colour) * light.intensity * m.ambient +
        (match m.pattern with
          | some pat => unwrapD (pattern_at sq noise object pat point) BLACK
          | none => m.colour) * light.intensity * m.diffuse *
            (((light.position - point).normalize sq).dot_product normalv) + BLACK) ∧
    (0 ≤ ((light.position - point).normalize sq).dot_product normalv →
      0 < (-(((light.position - point).normalize sq).reflect normalv)).dot_product eyev →
      lighting sq pw noise m object light point eyev normalv false =
        (match m.pattern with
          | some pat => unwrapD (pattern_at sq noise object pat point) BLACK
          | none => m.colour) * light.intensity * m.ambient +
        (match m.pattern with
          | some pat => unwrapD (pattern_at sq noise object pat point) BLACK
          | none => m.colour) * light.intensity * m.diffuse *
            (((light.position - point).normalize sq).dot_product normalv) +
        light.intensity * m.specular *
          pw ((-(((light.position - point).normalize sq).reflect normalv)).dot_product eyev)
            m.shininess) := by
  refine ⟨?_, ?_, ?_, ?_⟩
  · simp [lighting]
  · intro h
    simp [lighting, h]
  · intro h1 h2
    simp [lighting, not_lt.mpr h1, h2]
  · intro h1 h2
    simp [lighting, not_lt.mpr h1, not_le.mpr h2]

/-- Witness for C8: default material, light behind the surface (so the
light · normal product is −1 < 0): the result is the ambient term 0.1 alone;
and the in-shadow flag also yields the ambient term. -/
theorem lighting_spec_witness :
    lighting (fun x => if x = 100 then 10 else 0) (fun _ _ => 1) (fun _ _ _ => 0)
        Material.default (Shape.glass 3) ⟨WHITE, TypedVec.point 0 0 10⟩
        (TypedVec.point 0 0 0) (TypedVec.vector 0 0 (-1)) (TypedVec.vector 0 0 (-1))
        false = Colour.new (1 / 10) (1 / 10) (1 / 10) ∧
    lighting (fun x => if x = 100 then 10 else 0) (fun _ _ => 1) (fun _ _ _ => 0)
        Material.default (Shape.glass 3) ⟨WHITE, TypedVec.point 0 0 (-10)⟩
        (TypedVec.point 0 0 0) (TypedVec.vector 0 0 (-1)) (TypedVec.vector 0 0 (-1))
        true = Colour.new (1 / 10) (1 / 10) (1 / 10) := by
  constructor
  · exact ((lighting_spec (fun x => if x = 100 then 10 else 0) (fun _ _ => 1)
      (fun _ _ _ => 0) Material.default (Shape.glass 3) ⟨WHITE, TypedVec.point 0 0 10⟩
      (TypedVec.point 0 0 0) (TypedVec.vector 0 0 (-1)) (TypedVec.vector 0 0 (-1))).2.1
      (by with_unfolding_all decide)).trans (by with_unfolding_all decide)
  · exact ((lighting_spec (fun x => if x = 100 then 10 else 0) (fun _ _ => 1)
      (fun _ _ _ => 0) Material.default (Shape.glass 3) ⟨WHITE, TypedVec.point 0 0 (-10)⟩
      (TypedVec.point 0 0 0) (TypedVec.vector 0 0 (-1)) (TypedVec.vector 0 0 (-1))).1).trans
      (by with_unfolding_all decide)

/-! Machinery for the inverse entry characterization: how Matrix.set and
Matrix.get interact, and what the double write loop of Matrix.inverse
produces. -/

namespace Matrix

/-- set preserves the row count. -/
theorem rows_set (m : Matrix) (r c : ℕ) (v : ℚ) : (m.set r c v).rows = m.rows := by
  rw [set]; split <;> rfl

/-- set preserves the column count. -/
theorem cols_set (m : Matrix) (r c : ℕ) (v : ℚ) : (m.set r c v).cols = m.cols := by
  rw [set]; split <;> rfl

/-- set preserves the length of the data vector. -/
theorem length_data_set (m : Matrix) (r c : ℕ) (v : ℚ) :
    (m.set r c v).data.length = m.data.length := by
  rw [set]; split
  · exact List.length_set m.data _ v
  · rfl

/-- Row-major index bound: an in-bounds (row, col) pair addresses inside the
data vector. -/
theorem index_lt {a b R C : ℕ} (ha : a < C) (hb : b < R) : a + b * C < R * C :=
  calc a + b * C < C + b * C := by omega
    _ = (b + 1) * C := by ring
    _ ≤ R * C := Nat.mul_le_mul_right C hb

/-- Row-major indices are injective on in-bounds column offsets. -/
theorem index_inj {C a b a2 b2 : ℕ} (ha : a < C) (ha2 : a2 < C)
    (h : a + b * C = a2 + b2 * C) : a = a2 ∧ b = b2 := by
  have hC : 0 < C := lt_of_le_of_lt (Nat.zero_le a) ha
  have h1 : a = a2 := by
    have h2 := congrArg (fun t => t % C) h
    simpa [Nat.add_mul_mod_self_right, Nat.mod_eq_of_lt ha, Nat.mod_eq_of_lt ha2] using h2
  refine ⟨h1, ?_⟩
  subst h1
  have h3 : b * C = b2 * C := by omega
  exact Nat.eq_of_mul_eq_mul_right hC h3

/-- get after set at the same in-bounds position returns the written value. -/
theorem get_set_eq (m : Matrix) (r c : ℕ) (v : ℚ) (hr : r < m.rows) (hc : c < m.cols)
    (hlen : m.data.length = m.rows * m.cols) : (m.set r c v).get r c = some v := by
  rw [set, if_pos ⟨hc, hr⟩, get]
  show (if c < m.cols ∧ r < m.rows then _ else none) = _
  rw [if_pos ⟨hc, hr⟩]
  exact List.getElem?_set_eq_of_lt v (by rw [hlen]; exact index_lt hc hr)

/-- get after set at a different position is unchanged. -/
theorem get_set_ne (m : Matrix) (r c : ℕ) (v : ℚ) (r2 c2 : ℕ)
    (hne : ¬(r2 = r ∧ c2 = c)) : (m.set r c v).get r2 c2 = m.get r2 c2 := by
  rw [set]
  by_cases hin : c < m.cols ∧ r < m.rows
  · rw [if_pos hin, get, get]
    show (if c2 < m.cols ∧ r2 < m.rows then _ else none) = _
    by_cases hq : c2 < m.cols ∧ r2 < m.rows
    · rw [if_pos hq, if_pos hq]
      apply List.getElem?_set_ne
      intro heq
      have := index_inj hin.1 hq.1 heq
      exact hne ⟨this.2.symm, this.1.symm⟩
    · rw [if_neg hq, if_neg hq]
  · rw [if_neg hin]

/-- One inner pass of the write loop of inverse, writing the target column
`row` at the target rows listed in L: the written entries read back the
written value, everything else is untouched. -/
theorem foldl_set_row (n : ℕ) (f : ℕ → ℕ → ℚ) (row : ℕ) (hrow : row < n) :
    ∀ (L : List ℕ) (s : Matrix), s.rows = n → s.cols = n → s.data.length = n * n →
      (∀ c ∈ L, c < n) →
      (L.foldl (fun s col => s.set col row (f row col)) s).rows = n ∧
      (L.foldl (fun s col => s.set col row (f row col)) s).cols = n ∧
      (L.foldl (fun s col => s.set col row (f row col)) s).data.length = n * n ∧
      ∀ rT cT, rT < n → cT < n →
        (L.foldl (fun s col => s.set col row (f row col)) s).get rT cT =
          if cT = row ∧ rT ∈ L then some (f row rT) else s.get rT cT := by
  intro L
  induction L with
  | nil =>
    intro s h1 h2 h3 _
    refine ⟨h1, h2, h3, ?_⟩
    intro rT cT _ _
    simp
  | cons c L ih =>
    intro s h1 h2 h3 hmem
    have hc : c < n := hmem c (List.mem_cons_self _ _)
    have hmemL : ∀ x ∈ L, x < n := fun x hx => hmem x (List.mem_cons_of_mem _ hx)
    have h1s : (s.set c row (f row c)).rows = n := by rw [rows_set]; exact h1
    have h2s : (s.set c row (f row c)).cols = n := by rw [cols_set]; exact h2
    have h3s : (s.set c row (f row c)).data.length = n * n := by
      rw [length_data_set]; exact h3
    obtain ⟨g1, g2, g3, gget⟩ := ih (s.set c row (f row c)) h1s h2s h3s hmemL
    refine ⟨g1, g2, g3, ?_⟩
    intro rT cT hrT hcT
    rw [List.foldl_cons, gget rT cT hrT hcT]
    by_cases hL : cT = row ∧ rT ∈ L
    · rw [if_pos hL, if_pos ⟨hL.1, List.mem_cons_of_mem _ hL.2⟩]
    · rw [if_neg hL]
      by_cases hCL : cT = row ∧ rT ∈ c :: L
      · have hrTc : rT = c := by
          rcases List.mem_cons.mp hCL.2 with h | h
          · exact h
          · exact absurd ⟨hCL.1, h⟩ hL
        rw [if_pos hCL]
        subst hrTc
        have hcteq : cT = row := hCL.1
        subst hcteq
        exact get_set_eq s rT cT (f cT rT) (h1 ▸ hc) (h2 ▸ hrow) (by rw [h1, h2, h3])
      · rw [if_neg hCL]
        apply get_set_ne
        intro hcontra
        exact hCL ⟨hcontra.2, hcontra.1 ▸ List.mem_cons_self _ _⟩

/-- The full write loop of inverse over the target columns listed in R: the
entry at (rT, cT) is f cT rT for every covered column cT. -/
theorem foldl_set_all (n : ℕ) (f : ℕ → ℕ → ℚ) :
    ∀ (R : List ℕ) (s : Matrix), s.rows = n → s.cols = n → s.data.length = n * n →
      (∀ r ∈ R, r < n) →
      (R.foldl
          (fun s row => (List.range n).foldl (fun s col => s.set col row (f row col)) s)
          s).rows = n ∧
      (R.foldl
          (fun s row => (List.range n).foldl (fun s col => s.set col row (f row col)) s)
          s).cols = n ∧
      (R.foldl
          (fun s row => (List.range n).foldl (fun s col => s.set col row (f row col)) s)
          s).data.length = n * n ∧
      ∀ rT cT, rT < n → cT < n →
        (R.foldl
            (fun s row => (List.range n).foldl (fun s col => s.set col row (f row col)) s)
            s).get rT cT =
          if cT ∈ R then some (f cT rT) else s.get rT cT := by
  intro R
  induction R with
  | nil =>
    intro s h1 h2 h3 _
    refine ⟨h1, h2, h3, ?_⟩
    intro rT cT _ _
    simp
  | cons r R ih =>
    intro s h1 h2 h3 hmem
    have hr : r < n := hmem r (List.mem_cons_self _ _)
    have hmemR : ∀ x ∈ R, x < n := fun x hx => hmem x (List.mem_cons_of_mem _ hx)
    obtain ⟨g1, g2, g3, gget⟩ :=
      foldl_set_row n f r hr (List.range n) s h1 h2 h3 (fun c hc => List.mem_range.mp hc)
    obtain ⟨k1, k2, k3, kget⟩ :=
      ih ((List.range n).foldl (fun s col => s.set col r (f r col)) s) g1 g2 g3 hmemR
    refine ⟨k1, k2, k3, ?_⟩
    intro rT cT hrT hcT
    rw [List.foldl_cons, kget rT cT hrT hcT, gget rT cT hrT hcT]
    by_cases hR : cT ∈ R
    · rw [if_pos hR, if_pos (List.mem_cons_of_mem _ hR)]
    · rw [if_neg hR]
      by_cases hcr : cT = r
      · rw [if_pos ⟨hcr, List.mem_range.mpr hrT⟩, if_pos (hcr ▸ List.mem_cons_self _ _)]
        rw [hcr]
      · rw [if_neg (fun hand => hcr hand.1),
          if_neg (fun hmemc => by rcases List.mem_cons.mp hmemc with h | h; exacts [hcr h, hR h])]

/-- The successful inverse of a square matrix, with its entries: position
(col, row) holds cofactor(row, col) / det. -/
theorem inverse_ok_entries (nr : ℕ) (data : List ℚ)
    (hinv : (Matrix.mk nr nr data).invertible) :
    ∃ s, (Matrix.mk nr nr data).inverse = Except.ok s ∧ s.rows = nr ∧ s.cols = nr ∧
      ∀ row col, row < nr → col < nr →
        s.get col row =
          some (cofactor (Matrix.mk nr nr data) row col /
            determinant (Matrix.mk nr nr data)) := by
  obtain ⟨k1, k2, k3, kget⟩ :=
    foldl_set_all nr
      (fun row col =>
        cofactor (Matrix.mk nr nr data) row col / determinant (Matrix.mk nr nr data))
      (List.range nr) (new nr nr) rfl rfl (by simp [new]) (fun r hr => List.mem_range.mp hr)
  refine ⟨_, ?_, k1, k2, ?_⟩
  · rw [inverse, if_pos hinv]
  · intro row col hrow hcol
    rw [kget col row hcol hrow, if_pos (List.mem_range.mpr hrow)]

end Matrix

/-- C3.  Matrix::inverse of a square matrix (of size at least 2 — smaller
sizes panic inside determinant in the source) fails with the
"matrix isn't invertible" error exactly when the determinant is exactly
zero — there is no near-zero tolerance; when the determinant is nonzero it
succeeds, and the resulting matrix holds cofactor(row, col) / det at the
transposed position (col, row). -/
theorem inverse_spec (m : Matrix) (hsq : m.rows = m.cols) (_h2 : 2 ≤ m.rows) :
    ((∃ e, m.inverse = Except.error e) ↔ Matrix.determinant m = 0) ∧
    (Matrix.determinant m ≠ 0 →
      ∃ s, m.inverse = Except.ok s ∧ s.rows = m.rows ∧ s.cols = m.cols ∧
        ∀ row col, row < m.rows → col < m.cols →
          s.get col row = some (Matrix.cofactor m row col / Matrix.determinant m)) := by
  obtain ⟨nr, nc, data⟩ := m
  have hsq2 : nr = nc := hsq
  subst hsq2
  constructor
  · constructor
    · rintro ⟨e, he⟩
      by_contra hdet
      obtain ⟨s, hok, _⟩ := Matrix.inverse_ok_entries nr data hdet
      rw [hok] at he
      exact absurd he (by simp)
    · intro hdet
      refine ⟨"matrix isn't invertible", ?_⟩
      rw [Matrix.inverse, if_neg (fun hcon => hcon hdet)]
  · intro hdet
    exact Matrix.inverse_ok_entries nr data hdet

/-- Witness for C3: on the 4 × 4 matrix of the inversion test of the source
(determinant 532) the inverse succeeds and its entry at (3, 2) is the
cofactor at (2, 3) divided by the determinant, concretely −160/532; on the
singular test matrix (zero last row, determinant 0) inverse reports the
"not invertible" error. -/
theorem inverse_spec_witness :
    (∃ s, (Matrix.mk 4 4 [-5, 2, 6, -8, 1, -5, 1, 8, 7, 7, -6, -7, 1, -3, 7, 4]).inverse =
        Except.ok s ∧
      s.get 3 2 =
        some (Matrix.cofactor
            (Matrix.mk 4 4 [-5, 2, 6, -8, 1, -5, 1, 8, 7, 7, -6, -7, 1, -3, 7, 4]) 2 3 /
          Matrix.determinant
            (Matrix.mk 4 4 [-5, 2, 6, -8, 1, -5, 1, 8, 7, 7, -6, -7, 1, -3, 7, 4])) ∧
      Matrix.cofactor
          (Matrix.mk 4 4 [-5, 2, 6, -8, 1, -5, 1, 8, 7, 7, -6, -7, 1, -3, 7, 4]) 2 3 /
        Matrix.determinant
          (Matrix.mk 4 4 [-5, 2, 6, -8, 1, -5, 1, 8, 7, 7, -6, -7, 1, -3, 7, 4]) =
        -160 / 532) ∧
    (∃ e, (Matrix.mk 4 4 [-4, 2, -2, -3, 9, 6, 2, 6, 0, -5, 1, -5, 0, 0, 0, 0]).inverse =
      Except.error e) := by
  constructor
  · obtain ⟨s, hok, _, _, hent⟩ :=
      (inverse_spec (Matrix.mk 4 4 [-5, 2, 6, -8, 1, -5, 1, 8, 7, 7, -6, -7, 1, -3, 7, 4])
        rfl (by norm_num)).2 (by with_unfolding_all decide)
    exact ⟨s, hok, hent 2 3 (by norm_num) (by norm_num), by with_unfolding_all decide⟩
  · exact (inverse_spec (Matrix.mk 4 4 [-4, 2, -2, -3, 9, 6, 2, 6, 0, -5, 1, -5, 0, 0, 0, 0])
      rfl (by norm_num)).1.mpr (by with_unfolding_all decide)

/-- Determinant of a generic 3 x 3 matrix literal, by one step of the cofactor expansion of the source. -/
theorem det3_eq (p q r s t u x y z : ℚ) :
    Matrix.determinant ⟨3, 3, [p, q, r, s, t, u, x, y, z]⟩ =
      p * (t * z - u * y) - q * (s * z - u * x) + r * (s * y - t * x) := by
  rw [show Matrix.determinant ⟨3, 3, [p, q, r, s, t, u, x, y, z]⟩ =
    Matrix.detF 3 ⟨3, 3, [p, q, r, s, t, u, x, y, z]⟩ from rfl]
  rw [Matrix.detF]
  norm_num
  rw [show (List.range 3) = [0, 1, 2] from rfl]
  simp only [List.foldl_cons, List.foldl_nil]
  rw [show Matrix.submatrix ⟨3, 3, [p, q, r, s, t, u, x, y, z]⟩ 0 0 = ⟨2, 2, [t, u, y, z]⟩ from
    by with_unfolding_all rfl]
  rw [show Matrix.submatrix ⟨3, 3, [p, q, r, s, t, u, x, y, z]⟩ 0 1 = ⟨2, 2, [s, u, x, z]⟩ from
    by with_unfolding_all rfl]
  rw [show Matrix.submatrix ⟨3, 3, [p, q, r, s, t, u, x, y, z]⟩ 0 2 = ⟨2, 2, [s, t, x, y]⟩ from
    by with_unfolding_all rfl]
  rw [Matrix.detF, Matrix.detF, Matrix.detF]
  norm_num
  ring

/-- Bridge from the bounds-checked get to the raw indexed read used by mul_int. -/
theorem getD_eq_of_get (m : Matrix) (r c : ℕ) (x : ℚ) (h : m.get r c = some x) :
    m.data.getD (c + r * m.cols) 0 = x := by
  rw [Matrix.get] at h
  by_cases hin : c < m.cols ∧ r < m.rows
  · rw [if_pos hin] at h
    rw [List.getD_eq_getElem?_getD, h]
    rfl
  · rw [if_neg hin] at h
    exact absurd h (by simp)

/-- mul_int on a four-column matrix, written out. -/
theorem mul_int_four (m : Matrix) (h4 : m.cols = 4) (v0 v1 v2 v3 : ℚ) (row : ℕ) :
    Matrix.mul_int m [v0, v1, v2, v3] row =
      m.data.getD (0 + row * m.cols) 0 * v0 + m.data.getD (1 + row * m.cols) 0 * v1 +
        m.data.getD (2 + row * m.cols) 0 * v2 + m.data.getD (3 + row * m.cols) 0 * v3 := by
  rw [Matrix.mul_int, h4]
  rfl

/-- Matrix-TypedVec multiplication componentwise: x, y, z from mul_int on rows 0 to 2, w and the tag copied from the input. -/
theorem mulTV_def (m : Matrix) (t : TypedVec) :
    m.mulTV t =
      ⟨Matrix.mul_int m [t.x, t.y, t.z, t.w] 0, Matrix.mul_int m [t.x, t.y, t.z, t.w] 1,
        Matrix.mul_int m [t.x, t.y, t.z, t.w] 2, t.w, t.is⟩ := rfl

/-- Matrix-TypedVec multiplication of a 4 x 4 literal, written out. -/
theorem mulTV4_eval (p0 p1 p2 p3 p4 p5 p6 p7 p8 p9 p10 p11 p12 p13 p14 p15 : ℚ)
    (X Y Z W : ℚ) (IS : VecType) :
    (Matrix.mk 4 4 [p0,p1,p2,p3,p4,p5,p6,p7,p8,p9,p10,p11,p12,p13,p14,p15]).mulTV
        ⟨X, Y, Z, W, IS⟩ =
      ⟨p0*X + p1*Y + p2*Z + p3*W, p4*X + p5*Y + p6*Z + p7*W,
        p8*X + p9*Y + p10*Z + p11*W, W, IS⟩ := by
  with_unfolding_all rfl

set_option maxHeartbeats 1000000 in
/-- C6.  For every invertible homogeneous transform matrix — a 4 x 4 matrix
whose bottom row is (0, 0, 0, 1), the shape every transform constructor of
the source (translation, scaling, shearing, rotation) produces and that
products of transforms preserve — and every tagged quantity V, multiplying V
by the matrix and then by its inverse returns V exactly (over exact
rationals; the floating-point source satisfies this up to rounding, which is
what the spec's approximate equality allows).  The bottom-row restriction
matters because the source copies w from the input vector instead of
computing it from row 3, which is exact for homogeneous transforms. -/
theorem transform_roundtrip (M : Matrix) (a b c d e f g h i j k l : ℚ) (v : TypedVec)
    (hM : M = ⟨4, 4, [a, b, c, d, e, f, g, h, i, j, k, l, 0, 0, 0, 1]⟩)
    (hdet : Matrix.determinant M ≠ 0) :
    M.inverse.map (fun mi => mi.mulTV (M.mulTV v)) = Except.ok v := by
  subst hM
  obtain ⟨vx, vy, vz, vw, vis⟩ := v
  obtain ⟨s, hok, hrows, hcols, hget⟩ :=
    Matrix.inverse_ok_entries 4 [a, b, c, d, e, f, g, h, i, j, k, l, 0, 0, 0, 1] hdet
  rw [hok]
  simp only [Except.map]
  rw [mulTV4_eval]
  rw [mulTV_def s]
  simp only [mul_int_four s hcols]
  have g00 := getD_eq_of_get s 0 0 _ (hget 0 0 (by norm_num) (by norm_num))
  have g01 := getD_eq_of_get s 0 1 _ (hget 1 0 (by norm_num) (by norm_num))
  have g02 := getD_eq_of_get s 0 2 _ (hget 2 0 (by norm_num) (by norm_num))
  have g03 := getD_eq_of_get s 0 3 _ (hget 3 0 (by norm_num) (by norm_num))
  have g10 := getD_eq_of_get s 1 0 _ (hget 0 1 (by norm_num) (by norm_num))
  have g11 := getD_eq_of_get s 1 1 _ (hget 1 1 (by norm_num) (by norm_num))
  have g12 := getD_eq_of_get s 1 2 _ (hget 2 1 (by norm_num) (by norm_num))
  have g13 := getD_eq_of_get s 1 3 _ (hget 3 1 (by norm_num) (by norm_num))
  have g20 := getD_eq_of_get s 2 0 _ (hget 0 2 (by norm_num) (by norm_num))
  have g21 := getD_eq_of_get s 2 1 _ (hget 1 2 (by norm_num) (by norm_num))
  have g22 := getD_eq_of_get s 2 2 _ (hget 2 2 (by norm_num) (by norm_num))
  have g23 := getD_eq_of_get s 2 3 _ (hget 3 2 (by norm_num) (by norm_num))
  rw [g00, g01, g02, g03, g10, g11, g12, g13, g20, g21, g22, g23]
  have hsub00 : Matrix.submatrix (Matrix.mk 4 4 [a, b, c, d, e, f, g, h, i, j, k, l, 0, 0, 0, 1]) 0 0 = ⟨3, 3, [f, g, h, j, k, l, 0, 0, 1]⟩ := by
    with_unfolding_all rfl
  have hc00 : Matrix.cofactor (Matrix.mk 4 4 [a, b, c, d, e, f, g, h, i, j, k, l, 0, 0, 0, 1]) 0 0 = f * (k * 1 - l * 0) - g * (j * 1 - l * 0) + h * (j * 0 - k * 0) := by
    simp only [Matrix.cofactor, Matrix.minor, if_true, if_false]
    rw [hsub00, det3_eq]
  have hsub10 : Matrix.submatrix (Matrix.mk 4 4 [a, b, c, d, e, f, g, h, i, j, k, l, 0, 0, 0, 1]) 1 0 = ⟨3, 3, [b, c, d, j, k, l, 0, 0, 1]⟩ := by
    with_unfolding_all rfl
  have hc10 : Matrix.cofactor (Matrix.mk 4 4 [a, b, c, d, e, f, g, h, i, j, k, l, 0, 0, 0, 1]) 1 0 = -(b * (k * 1 - l * 0) - c * (j * 1 - l * 0) + d * (j * 0 - k * 0)) := by
    simp only [Matrix.cofactor, Matrix.minor, if_true, if_false]
    rw [hsub10, det3_eq]
    norm_num
  have hsub20 : Matrix.submatrix (Matrix.mk 4 4 [a, b, c, d, e, f, g, h, i, j, k, l, 0, 0, 0, 1]) 2 0 = ⟨3, 3, [b, c, d, f, g, h, 0, 0, 1]⟩ := by
    with_unfolding_all rfl
  have hc20 : Matrix.cofactor (Matrix.mk 4 4 [a, b, c, d, e, f, g, h, i, j, k, l, 0, 0, 0, 1]) 2 0 = b * (g * 1 - h * 0) - c * (f * 1 - h * 0) + d * (f * 0 - g * 0) := by
    simp only [Matrix.cofactor, Matrix.minor, if_true, if_false]
    rw [hsub20, det3_eq]
  have hsub30 : Matrix.submatrix (Matrix.mk 4 4 [a, b, c, d, e, f, g, h, i, j, k, l, 0, 0, 0, 1]) 3 0 = ⟨3, 3, [b, c, d, f, g, h, j, k, l]⟩ := by
    with_unfolding_all rfl
  have hc30 : Matrix.cofactor (Matrix.mk 4 4 [a, b, c, d, e, f, g, h, i, j, k, l, 0, 0, 0, 1]) 3 0 = -(b * (g * l - h * k) - c * (f * l - h * j) + d * (f * k - g * j)) := by
    simp only [Matrix.cofactor, Matrix.minor, if_true, if_false]
    rw [hsub30, det3_eq]
    norm_num
  have hsub01 : Matrix.submatrix (Matrix.mk 4 4 [a, b, c, d, e, f, g, h, i, j, k, l, 0, 0, 0, 1]) 0 1 = ⟨3, 3, [e, g, h, i, k, l, 0, 0, 1]⟩ := by
    with_unfolding_all rfl
  have hc01 : Matrix.cofactor (Matrix.mk 4 4 [a, b, c, d, e, f, g, h, i, j, k, l, 0, 0, 0, 1]) 0 1 = -(e * (k * 1 - l * 0) - g * (i * 1 - l * 0) + h * (i * 0 - k * 0)) := by
    simp only [Matrix.cofactor, Matrix.minor, if_true, if_false]
    rw [hsub01, det3_eq]
    norm_num
  have hsub11 : Matrix.submatrix (Matrix.mk 4 4 [a, b, c, d, e, f, g, h, i, j, k, l, 0, 0, 0, 1]) 1 1 = ⟨3, 3, [a, c, d, i, k, l, 0, 0, 1]⟩ := by
    with_unfolding_all rfl
  have hc11 : Matrix.cofactor (Matrix.mk 4 4 [a, b, c, d, e, f, g, h, i, j, k, l, 0, 0, 0, 1]) 1 1 = a * (k * 1 - l * 0) - c * (i * 1 - l * 0) + d * (i * 0 - k * 0) := by
    simp only [Matrix.cofactor, Matrix.minor, if_true, if_false]
    rw [hsub11, det3_eq]
  have hsub21 : Matrix.submatrix (Matrix.mk 4 4 [a, b, c, d, e, f, g, h, i, j, k, l, 0, 0, 0, 1]) 2 1 = ⟨3, 3, [a, c, d, e, g, h, 0, 0, 1]⟩ := by
    with_unfolding_all rfl
  have hc21 : Matrix.cofactor (Matrix.mk 4 4 [a, b, c, d, e, f, g, h, i, j, k, l, 0, 0, 0, 1]) 2 1 = -(a * (g * 1 - h * 0) - c * (e * 1 - h * 0) + d * (e * 0 - g * 0)) := by
    simp only [Matrix.cofactor, Matrix.minor, if_true, if_false]
    rw [hsub21, det3_eq]
    norm_num
  have hsub31 : Matrix.submatrix (Matrix.mk 4 4 [a, b, c, d, e, f, g, h, i, j, k, l, 0, 0, 0, 1]) 3 1 = ⟨3, 3, [a, c, d, e, g, h, i, k, l]⟩ := by
    with_unfolding_all rfl
  have hc31 : Matrix.cofactor (Matrix.mk 4 4 [a, b, c, d, e, f, g, h, i, j, k, l, 0, 0, 0, 1]) 3 1 = a * (g * l - h * k) - c * (e * l - h * i) + d * (e * k - g * i) := by
    simp only [Matrix.cofactor, Matrix.minor, if_true, if_false]
    rw [hsub31, det3_eq]
  have hsub02 : Matrix.submatrix (Matrix.mk 4 4 [a, b, c, d, e, f, g, h, i, j, k, l, 0, 0, 0, 1]) 0 2 = ⟨3, 3, [e, f, h, i, j, l, 0, 0, 1]⟩ := by
    with_unfolding_all rfl
  have hc02 : Matrix.cofactor (Matrix.mk 4 4 [a, b, c, d, e, f, g, h, i, j, k, l, 0, 0, 0, 1]) 0 2 = e * (j * 1 - l * 0) - f * (i * 1 - l * 0) + h * (i * 0 - j * 0) := by
    simp only [Matrix.cofactor, Matrix.minor, if_true, if_false]
    rw [hsub02, det3_eq]
  have hsub12 : Matrix.submatrix (Matrix.mk 4 4 [a, b, c, d, e, f, g, h, i, j, k, l, 0, 0, 0, 1]) 1 2 = ⟨3, 3, [a, b, d, i, j, l, 0, 0, 1]⟩ := by
    with_unfolding_all rfl
  have hc12 : Matrix.cofactor (Matrix.mk 4 4 [a, b, c, d, e, f, g, h, i, j, k, l, 0, 0, 0, 1]) 1 2 = -(a * (j * 1 - l * 0) - b * (i * 1 - l * 0) + d * (i * 0 - j * 0)) := by
    simp only [Matrix.cofactor, Matrix.minor, if_true, if_false]
    rw [hsub12, det3_eq]
    norm_num
  have hsub22 : Matrix.submatrix (Matrix.mk 4 4 [a, b, c, d, e, f, g, h, i, j, k, l, 0, 0, 0, 1]) 2 2 = ⟨3, 3, [a, b, d, e, f, h, 0, 0, 1]⟩ := by
    with_unfolding_all rfl
  have hc22 : Matrix.cofactor (Matrix.mk 4 4 [a, b, c, d, e, f, g, h, i, j, k, l, 0, 0, 0, 1]) 2 2 = a * (f * 1 - h * 0) - b * (e * 1 - h * 0) + d * (e * 0 - f * 0) := by
    simp only [Matrix.cofactor, Matrix.minor, if_true, if_false]
    rw [hsub22, det3_eq]
  have hsub32 : Matrix.submatrix (Matrix.mk 4 4 [a, b, c, d, e, f, g, h, i, j, k, l, 0, 0, 0, 1]) 3 2 = ⟨3, 3, [a, b, d, e, f, h, i, j, l]⟩ := by
    with_unfolding_all rfl
  have hc32 : Matrix.cofactor (Matrix.mk 4 4 [a, b, c, d, e, f, g, h, i, j, k, l, 0, 0, 0, 1]) 3 2 = -(a * (f * l - h * j) - b * (e * l - h * i) + d * (e * j - f * i)) := by
    simp only [Matrix.cofactor, Matrix.minor, if_true, if_false]
    rw [hsub32, det3_eq]
    norm_num
  have hdsub0 : Matrix.submatrix (Matrix.mk 4 4 [a, b, c, d, e, f, g, h, i, j, k, l, 0, 0, 0, 1]) 0 0 = ⟨3, 3, [f, g, h, j, k, l, 0, 0, 1]⟩ := by
    with_unfolding_all rfl
  have hdsub1 : Matrix.submatrix (Matrix.mk 4 4 [a, b, c, d, e, f, g, h, i, j, k, l, 0, 0, 0, 1]) 0 1 = ⟨3, 3, [e, g, h, i, k, l, 0, 0, 1]⟩ := by
    with_unfolding_all rfl
  have hdsub2 : Matrix.submatrix (Matrix.mk 4 4 [a, b, c, d, e, f, g, h, i, j, k, l, 0, 0, 0, 1]) 0 2 = ⟨3, 3, [e, f, h, i, j, l, 0, 0, 1]⟩ := by
    with_unfolding_all rfl
  have hdsub3 : Matrix.submatrix (Matrix.mk 4 4 [a, b, c, d, e, f, g, h, i, j, k, l, 0, 0, 0, 1]) 0 3 = ⟨3, 3, [e, f, g, i, j, k, 0, 0, 0]⟩ := by
    with_unfolding_all rfl
  have hD : Matrix.determinant (Matrix.mk 4 4 [a, b, c, d, e, f, g, h, i, j, k, l, 0, 0, 0, 1]) =
      a * (f * k - g * j) - b * (e * k - g * i) + c * (e * j - f * i) := by
    rw [show Matrix.determinant (Matrix.mk 4 4 [a, b, c, d, e, f, g, h, i, j, k, l, 0, 0, 0, 1]) = Matrix.detF 4 (Matrix.mk 4 4 [a, b, c, d, e, f, g, h, i, j, k, l, 0, 0, 0, 1]) from rfl]
    rw [Matrix.detF]
    norm_num
    rw [show (List.range 4) = [0, 1, 2, 3] from rfl]
    simp only [List.foldl_cons, List.foldl_nil]
    rw [hdsub0, show Matrix.detF 3 (Matrix.mk 3 3 [f, g, h, j, k, l, 0, 0, 1]) =
      Matrix.determinant (Matrix.mk 3 3 [f, g, h, j, k, l, 0, 0, 1]) from rfl, det3_eq]
    rw [hdsub1, show Matrix.detF 3 (Matrix.mk 3 3 [e, g, h, i, k, l, 0, 0, 1]) =
      Matrix.determinant (Matrix.mk 3 3 [e, g, h, i, k, l, 0, 0, 1]) from rfl, det3_eq]
    rw [hdsub2, show Matrix.detF 3 (Matrix.mk 3 3 [e, f, h, i, j, l, 0, 0, 1]) =
      Matrix.determinant (Matrix.mk 3 3 [e, f, h, i, j, l, 0, 0, 1]) from rfl, det3_eq]
    rw [hdsub3, show Matrix.detF 3 (Matrix.mk 3 3 [e, f, g, i, j, k, 0, 0, 0]) =
      Matrix.determinant (Matrix.mk 3 3 [e, f, g, i, j, k, 0, 0, 0]) from rfl, det3_eq]
    simp only [show (([a, b, c, d, e, f, g, h, i, j, k, l, 0, 0, 0, 1] : List ℚ))[0]?.getD 0 = a from rfl,
      show (([a, b, c, d, e, f, g, h, i, j, k, l, 0, 0, 0, 1] : List ℚ))[1]?.getD 0 = b from rfl,
      show (([a, b, c, d, e, f, g, h, i, j, k, l, 0, 0, 0, 1] : List ℚ))[2]?.getD 0 = c from rfl,
      show (([a, b, c, d, e, f, g, h, i, j, k, l, 0, 0, 0, 1] : List ℚ))[3]?.getD 0 = d from rfl]
    norm_num
    ring
  rw [hc00, hc10, hc20, hc30,
    hc01, hc11, hc21, hc31,
    hc02, hc12, hc22, hc32]
  rw [hD]
  have hDne : a * (f * k - g * j) - b * (e * k - g * i) + c * (e * j - f * i) ≠ 0 := hD ▸ hdet
  simp only [Except.ok.injEq, TypedVec.mk.injEq]
  refine ⟨?_, ?_, ?_, trivial, trivial⟩
  · field_simp
    ring
  · field_simp
    ring
  · field_simp
    ring

/-- Witness for C6 at the translation transform (5, −3, 2) of the source
tests and the point (−3, 4, 5): the round trip through the inverse returns
the point unchanged. -/
theorem transform_roundtrip_witness :
    (Matrix.translation 5 (-3) 2).inverse.map
        (fun mi => mi.mulTV ((Matrix.translation 5 (-3) 2).mulTV (TypedVec.point (-3) 4 5))) =
      Except.ok (TypedVec.point (-3) 4 5) :=
  transform_roundtrip (Matrix.translation 5 (-3) 2) 1 0 0 5 0 1 0 (-3) 0 0 1 2
    (TypedVec.point (-3) 4 5) (by with_unfolding_all decide) (by with_unfolding_all decide)

end RayTrace
